import Mathlib

/-!
Verification development for the lorri daemon core
(`src/build_loop.rs`, `src/error.rs`, `src/ops/daemon.rs`,
`src/ops/stream_events.rs`, `src/ops/init.rs`).

Pure data and control flow of the Rust source are embedded shallowly:
enums become inductives, struct fields keep their Rust names, the
channel/loop code becomes explicit state passing over lists of inputs.
Types defined outside the five source files (`NixFile`, `Reason`,
`DebugMessage`, `builder::OutputPaths`, `roots::RootPath`) are modelled
from the spec, as noted on each definition.
-/

/-- Modelled from the spec: `NixFile` (defined in the crate root, outside
the provided sources) is a newtype around the path of the project's
build-expression file; a project's identity. We model paths as strings. -/
abbrev NixFile := String

/-- Modelled from the spec: `roots::RootPath` (defined in `project/roots.rs`,
outside the provided sources) is the path of a created GC-root reference. -/
abbrev RootPath := String

/-- Modelled from the spec: `builder::OutputPaths` (defined in `builder.rs`,
outside the provided sources) maps each logical output role to a value;
the primary role is the shell environment root. -/
structure OutputPaths (α : Type) where
  shell_gc_root : α
  deriving DecidableEq, Repr

/-- Modelled from the spec: `DebugMessage` (defined in the crate root,
outside the provided sources) wraps a debug-formatted description string. -/
structure DebugMessage where
  msg : String
  deriving DecidableEq, Repr

/-- A byte of an OS string: `some c` is a byte sequence that decodes to the
Unicode scalar `c`, `none` is a byte that is not valid UTF-8 at its
position. `std::ffi::OsString` (standard library) is modelled as a list of
such units, abstracting the raw byte encoding. -/
abbrev OsChar := Option Char

/-- Model of `std::ffi::OsString`: a sequence of decoded units. -/
abbrev OsString := List OsChar

/-- The Unicode replacement character U+FFFD used by `to_string_lossy`. -/
def replacementChar : Char := Char.ofNat 0xFFFD

/-- Model of `OsStr::to_string_lossy` (standard library): valid units are
kept, invalid bytes are replaced by U+FFFD. Total on every `OsString`. -/
def toStringLossy (os : OsString) : List Char :=
  os.map (fun u => match u with | some c => c | none => replacementChar)

/-- An `OsString` is valid UTF-8 when every unit decoded successfully. -/
def validUtf8 (os : OsString) : Prop := ∀ u ∈ os, u.isSome = true

instance (os : OsString) : Decidable (validUtf8 os) := by
  unfold validUtf8; infer_instance

/-- `src/error.rs`: `LogLine`, a line from stderr log output, wrapping an
`OsString`. -/
structure LogLine where
  line : OsString
  deriving DecidableEq, Repr

/-- `src/error.rs` `impl Serialize for LogLine`: serialize the wrapped
`OsString` as the string `to_string_lossy` yields. We model the serialized
form as the character list of that string. -/
def LogLine.serialize (ll : LogLine) : List Char :=
  toStringLossy ll.line

/-- `src/error.rs` `impl Deserialize for LogLine` (`visit_str`): wrap the
string back into an `OsString` (every character of a string is a valid
unit). -/
def LogLine.deserialize (s : List Char) : LogLine :=
  ⟨s.map some⟩

/-- `src/build_loop.rs`: `BuildResults`, results of a single successful
build. -/
structure BuildResults where
  output_paths : OutputPaths RootPath
  deriving DecidableEq, Repr

/-- `src/build_loop.rs`: `BuildExitFailure`, results of a single failing
build. -/
structure BuildExitFailure where
  log_lines : List OsString
  deriving DecidableEq, Repr

/-- Modelled from the spec: `Reason` (`TriggerReason`, defined in
`watch.rs`, outside the provided sources): `ProjectAdded(file)`,
`FilesChanged(paths)`, `UnknownEvent` (opaque carrier), `PingReceived`.
`ProjectAdded` and `UnknownEvent` payloads follow their uses in
`src/build_loop.rs`. -/
inductive Reason where
  | ProjectAdded (nix_file : NixFile)
  | FilesChanged (paths : List String)
  | UnknownEvent (dbg : DebugMessage)
  | PingReceived
  deriving DecidableEq, Repr

/-- `src/build_loop.rs`: the `Event` enum sent by build loops. -/
inductive Event where
  | Heartbeat
  | SectionEnd
  | Started (nix_file : NixFile) (reason : Reason)
  | Completed (nix_file : NixFile) (result : BuildResults)
  | Failure (nix_file : NixFile) (failure : BuildExitFailure)
  deriving DecidableEq, Repr

/-- `src/build_loop.rs`: `UnrecoverableErrors` — internal plumbing
failures. The payload types live outside the provided sources; we model
each as its debug description. -/
inductive UnrecoverableErrors where
  | Build (e : String)
  | AddRoot (e : String)
  | Notify (e : String)
  deriving DecidableEq, Repr

/-- `src/build_loop.rs`: the build loop's `BuildError` enum
(distinct from `error::BuildError` of `src/error.rs`). -/
inductive LoopBuildError where
  | Recoverable (failure : BuildExitFailure)
  | Unrecoverable (err : UnrecoverableErrors)
  deriving DecidableEq, Repr

/-- Modelled from the spec: `RawEventError` (defined in `watch.rs`, outside
the provided sources), following its two uses in `src/build_loop.rs`:
either the raw notification event carried no file path, or the
notification channel is closed (the watcher died). -/
inductive RawEventError where
  | EventHasNoFilePath (msg : String)
  | RxNoEventReceived
  deriving DecidableEq, Repr

/-- One iteration's inputs to `BuildLoop::forever`: the outcome of
`self.once()` and the outcome of `self.watch.wait_for_change()`. -/
structure LoopStep where
  build : Except LoopBuildError BuildResults
  wait : Except RawEventError Reason
  deriving Repr

/-- `src/build_loop.rs` lines 95-101: what `forever` sends for one
`once()` outcome; `none` models the `panic!` on an unrecoverable error. -/
def terminalOf (nix_file : NixFile) :
    Except LoopBuildError BuildResults → Option Event
  | Except.ok result => some (Event.Completed nix_file result)
  | Except.error (LoopBuildError.Recoverable failure) =>
      some (Event.Failure nix_file failure)
  | Except.error (LoopBuildError.Unrecoverable _) => none

/-- `src/build_loop.rs` lines 103-117: the reason used as the next
trigger for one `wait_for_change()` outcome. A missing file path becomes
`Reason::UnknownEvent` carrying the debug output; `none` models the
`panic!` when the notification channel is closed (watcher died). -/
def triggerOf : Except RawEventError Reason → Option Reason
  | Except.ok r => some r
  | Except.error (RawEventError.EventHasNoFilePath msg) =>
      some (Reason.UnknownEvent ⟨msg⟩)
  | Except.error RawEventError.RxNoEventReceived => none

/-- The events sent by the `loop` body of `BuildLoop::forever`
(`src/build_loop.rs` lines 94-125), given the iteration inputs: send the
terminal event for the build outcome (or die), then turn the wait outcome
into the next trigger (or die) and send `Started` with it. -/
def loopIter (nix_file : NixFile) : List LoopStep → List Event
  | [] => []
  | step :: rest =>
    match terminalOf nix_file step.build with
    | none => []
    | some ev =>
      ev ::
        match triggerOf step.wait with
        | none => []
        | some r => Event.Started nix_file r :: loopIter nix_file rest

/-- `BuildLoop::forever` (`src/build_loop.rs` lines 87-125): first sends
`Started(ProjectAdded(nix_file))`, then runs the loop. -/
def buildLoopTrace (nix_file : NixFile) (steps : List LoopStep) : List Event :=
  Event.Started nix_file (Reason.ProjectAdded nix_file) :: loopIter nix_file steps

/-- Is an event a `Started` event? -/
def isStarted : Event → Bool
  | Event.Started _ _ => true
  | _ => false

/-- Is an event a terminal event (`Completed` or `Failure`)? -/
def isTerminal : Event → Bool
  | Event.Completed _ _ => true
  | Event.Failure _ _ => true
  | _ => false

/-- The project key an event carries: `Started`/`Completed`/`Failure`
carry a `nix_file`; `Heartbeat` and `SectionEnd` carry none. -/
def keyOf : Event → Option NixFile
  | Event.Started nix_file _ => some nix_file
  | Event.Completed nix_file _ => some nix_file
  | Event.Failure nix_file _ => some nix_file
  | Event.Heartbeat => none
  | Event.SectionEnd => none

/-- A listener channel from the router's side (`chan::Sender<Event>` of an
unbounded crossbeam channel, `src/ops/daemon.rs` line 67). `received` are
the events successfully sent to it so far; `remaining` models the client:
`none` means the receiving end stays open (every send succeeds),
`some k` means the client disconnects after accepting `k` more messages
(disconnection is permanent, so all later sends fail). -/
structure Listener where
  received : List Event
  remaining : Option Nat
  deriving DecidableEq, Repr

/-- One `tx.send(ev)`: returns the updated listener and whether the send
succeeded (`is_ok()`). -/
def Listener.send (l : Listener) (ev : Event) : Listener × Bool :=
  match l.remaining with
  | none => (⟨l.received ++ [ev], none⟩, true)
  | some 0 => (l, false)
  | some (k + 1) => (⟨l.received ++ [ev], some k⟩, true)

/-- `src/ops/daemon.rs` line 84: `.values().all(|event| tx.send(..).is_ok())`
— send each event in turn, short-circuiting at the first failed send.
Returns the updated listener and the `all` result. -/
def Listener.sendAll (l : Listener) : List Event → Listener × Bool
  | [] => (l, true)
  | ev :: rest =>
    let p := l.send ev
    if p.2 then p.1.sendAll rest else (p.1, false)

/-- `src/ops/daemon.rs` lines 5, 72, 81: the two message kinds on the
router's inbound channel. `NewListener` carries a freshly created channel
(`src/ops/daemon.rs` line 51 creates it just before sending), modelled by
the client's `remaining` acceptance budget; the channel starts with no
received messages. -/
inductive LoopHandlerEvent where
  | BuildEvent (ev : Event)
  | NewListener (remaining : Option Nat)

/-- The association-list map backing `HashMap<NixFile, Event>`:
`insert` replaces the binding of an existing key or appends a new one. -/
def insertPS (ps : List (NixFile × Event)) (nix_file : NixFile) (ev : Event) :
    List (NixFile × Event) :=
  match ps with
  | [] => [(nix_file, ev)]
  | (k, v) :: rest =>
    if k = nix_file then (nix_file, ev) :: rest
    else (k, v) :: insertPS rest nix_file ev

/-- The event-router thread's state (`src/ops/daemon.rs` lines 66-67):
the `project_states` map and the `event_listeners` vector. -/
structure RouterState where
  project_states : List (NixFile × Event)
  event_listeners : List Listener
  deriving Repr

/-- `src/ops/daemon.rs` lines 66-67: both start empty. -/
def initRouterState : RouterState := ⟨[], []⟩

/-- `src/ops/daemon.rs` line 78: `event_listeners.retain(|tx|
tx.send(ev.clone()).is_ok())` — send to every current listener in order,
keeping exactly those whose send succeeded (in their updated state). -/
def broadcastEvent (ls : List Listener) (ev : Event) : List Listener :=
  ls.filterMap (fun l =>
    let p := l.send ev
    if p.2 then some p.1 else none)

/-- `src/ops/daemon.rs` lines 72-80, the `BuildEvent` arm:
`SectionEnd` does nothing; `Started`/`Completed`/`Failure` insert the
event under its `nix_file` key and broadcast it to all listeners.
The arm has no case for `Heartbeat`; `none` models that the router has
no defined behaviour for it (the match does not cover it). -/
def handleBuildEvent (st : RouterState) (ev : Event) : Option RouterState :=
  match ev with
  | Event.SectionEnd => some st
  | Event.Heartbeat => none
  | Event.Started nix_file _ | Event.Completed nix_file _
  | Event.Failure nix_file _ =>
    some ⟨insertPS st.project_states nix_file ev,
          broadcastEvent st.event_listeners ev⟩

/-- `src/ops/daemon.rs` lines 81-88, the `NewListener` arm: replay all
current `project_states` values to the fresh channel; if all sends
succeed (`keep`) and the `SectionEnd` sentinel send also succeeds, push
the channel onto `event_listeners`; otherwise discard it, leaving the
state unchanged (no error in either case). -/
def handleNewListener (st : RouterState) (remaining : Option Nat) :
    RouterState :=
  let p := Listener.sendAll ⟨[], remaining⟩ (st.project_states.map Prod.snd)
  if p.2 then
    let q := p.1.send Event.SectionEnd
    if q.2 then ⟨st.project_states, st.event_listeners ++ [q.1]⟩ else st
  else st

/-- One iteration of the router loop (`for msg in build_messages_rx`). -/
def routerStep (st : RouterState) : LoopHandlerEvent → Option RouterState
  | LoopHandlerEvent.BuildEvent ev => handleBuildEvent st ev
  | LoopHandlerEvent.NewListener remaining =>
    some (handleNewListener st remaining)

/-- The router loop over a finite prefix of its inbound messages. -/
def routerRun (st : RouterState) : List LoopHandlerEvent → Option RouterState
  | [] => some st
  | m :: rest =>
    match routerStep st m with
    | none => none
    | some st' => routerRun st' rest

/-- The most recent project-keyed event for `nix_file` among a message
prefix: what the spec calls "the most recently received non-SectionEnd
event" for that project. -/
def updateLastKeyed (nix_file : NixFile) (acc : Option Event) :
    LoopHandlerEvent → Option Event
  | LoopHandlerEvent.BuildEvent ev =>
    if keyOf ev = some nix_file then some ev else acc
  | LoopHandlerEvent.NewListener _ => acc

/-- See `updateLastKeyed`: fold it over the message prefix. -/
def lastKeyedEvent (msgs : List LoopHandlerEvent) (nix_file : NixFile) :
    Option Event :=
  msgs.foldl (updateLastKeyed nix_file) none

/-- The router's stream-shape invariant: no `SectionEnd` is ever stored in
the project-state map, and every live listener's received stream contains
exactly one `SectionEnd` — the end of its replay handshake — with no
sentinel before or after it. -/
def routerInv (st : RouterState) : Prop :=
  (∀ ev ∈ st.project_states.map Prod.snd, ev ≠ Event.SectionEnd)
  ∧ ∀ l ∈ st.event_listeners, ∃ pre post,
      l.received = pre ++ Event.SectionEnd :: post
      ∧ Event.SectionEnd ∉ pre ∧ Event.SectionEnd ∉ post

/-- `src/ops/stream_events.rs` lines 16-24: the kinds of events a
stream-events client can request. -/
inductive EventKind where
  | Live
  | Snapshot
  | All
  deriving DecidableEq, Repr

/-- `src/ops/stream_events.rs` lines 26-37: `FromStr for EventKind`. -/
def EventKind.from_str : String → Except String EventKind
  | "all" => Except.ok EventKind.All
  | "live" => Except.ok EventKind.Live
  | "snapshot" => Except.ok EventKind.Snapshot
  | s => Except.error (s ++ " not in all,live,snapshot")

/-- `src/ops/stream_events.rs` lines 86-94: whether a non-`SectionEnd`
event is printed, given the current `snapshot_done` flag and the requested
kind — the match over `(snapshot_done, &kind)`. -/
def shouldPrint : Bool × EventKind → Bool
  | (_, EventKind.All) => true
  | (false, EventKind.Snapshot) => true
  | (true, EventKind.Live) => true
  | _ => false

/-- `src/ops/stream_events.rs` lines 72-97: the client's event loop, with
`snapshot_done` threaded through. Returns the list of printed events.
On `SectionEnd`: in `Snapshot` mode return (stop reading); otherwise set
`snapshot_done` and print nothing. Any other event is printed when
`shouldPrint` says so. -/
def streamLoop (kind : EventKind) (snapshot_done : Bool) :
    List Event → List Event
  | [] => []
  | ev :: rest =>
    match ev with
    | Event.SectionEnd =>
      match kind with
      | EventKind.Snapshot => []
      | _ => streamLoop kind true rest
    | e =>
      (if shouldPrint (snapshot_done, kind) then [e] else []) ++
        streamLoop kind snapshot_done rest

/-- `stream_events::main` on a decoded incoming event stream:
`snapshot_done` starts `false` (`src/ops/stream_events.rs` line 57). -/
def streamOutput (kind : EventKind) (events : List Event) : List Event :=
  streamLoop kind false events

/-- The spec's wording for Snapshot mode: the events preceding the first
`SectionEnd`. -/
def snapshotSpec (events : List Event) : List Event :=
  events.takeWhile (fun e => e ≠ Event.SectionEnd)

/-- The spec's wording for Live mode: the events strictly after the first
`SectionEnd`, with sentinels never printed. -/
def liveSpec (events : List Event) : List Event :=
  ((events.dropWhile (fun e => e ≠ Event.SectionEnd)).drop 1).filter
    (fun e => e ≠ Event.SectionEnd)

/-- The spec's wording for All mode: every non-`SectionEnd` event. -/
def allSpec (events : List Event) : List Event :=
  events.filter (fun e => e ≠ Event.SectionEnd)

/-- The filesystem visible to `lorri init`, as a partial map from paths to
file contents (association list; `lookup` is the first binding). -/
abbrev FileSystem := List (String × String)

/-- `src/ops/init.rs` lines 9-19: `create_if_missing` — if a file exists
at `path`, do nothing (report success); otherwise create the file with
exactly `contents`. The `msg` argument only affects logging. -/
def create_if_missing (fs : FileSystem) (path contents _msg : String) :
    FileSystem :=
  if (fs.lookup path).isSome then fs else (path, contents) :: fs

/-- `src/ops/init.rs` lines 23-37: `main` — scaffold `./shell.nix` with
`default_shell`, then `./.envrc` with `default_envrc`, each only if
missing. -/
def init_main (fs : FileSystem) (default_shell default_envrc : String) :
    FileSystem :=
  create_if_missing
    (create_if_missing fs "./shell.nix" default_shell
      "shell.nix exists, skipping. Make sure it is of a form that works with nix-shell.")
    "./.envrc" default_envrc
    ".envrc exists, skipping. Please add direnv setup to it."

/-- `src/error.rs` lines 11-53: `error::BuildError` (distinct from the
build loop's `BuildError` enum in `src/build_loop.rs`). -/
inductive BuildError where
  | Io (msg : String)
  | Spawn (cmd : String) (msg : String)
  | Exit (cmd : String) (status : Option Int) (logs : List LogLine)
  | Output (msg : String)
  deriving DecidableEq, Repr

/-- `src/error.rs` lines 240-248: `BuildError::is_actionable`. -/
def BuildError.is_actionable : BuildError → Bool
  | BuildError.Io _ => false
  | BuildError.Spawn _ _ => true
  | BuildError.Exit _ _ _ => true
  | BuildError.Output _ => true

/-! ## Build loop: alternation and start-up -/

lemma isStarted_started (nix_file : NixFile) (r : Reason) :
    isStarted (Event.Started nix_file r) = true := rfl

lemma terminalOf_not_started {nix_file : NixFile}
    {b : Except LoopBuildError BuildResults} {ev : Event}
    (h : terminalOf nix_file b = some ev) :
    isStarted ev = false ∧ isTerminal ev = true := by
  cases b with
  | ok r =>
    simp only [terminalOf, Option.some.injEq] at h
    subst h
    exact ⟨rfl, rfl⟩
  | error e =>
    cases e with
    | Recoverable f =>
      simp only [terminalOf, Option.some.injEq] at h
      subst h
      exact ⟨rfl, rfl⟩
    | Unrecoverable u => simp [terminalOf] at h

lemma loopIter_props (nix_file : NixFile) (steps : List LoopStep) :
    List.Chain' (fun a b => isStarted a ≠ isStarted b) (loopIter nix_file steps)
    ∧ (∀ e, (loopIter nix_file steps).head? = some e → isStarted e = false)
    ∧ (∀ e ∈ loopIter nix_file steps,
        isStarted e = true ∨ isTerminal e = true) := by
  induction steps with
  | nil => simp [loopIter]
  | cons s rest ih =>
    cases hb : terminalOf nix_file s.build with
    | none => simp [loopIter, hb]
    | some ev =>
      obtain ⟨hev1, hev2⟩ := terminalOf_not_started hb
      cases hw : triggerOf s.wait with
      | none =>
        simp only [loopIter, hb, hw]
        exact ⟨List.chain'_singleton ev,
               fun e he => by simp at he; subst he; exact hev1,
               fun e he => by simp at he; subst he; exact Or.inr hev2⟩
      | some r =>
        obtain ⟨ihc, ihh, ihm⟩ := ih
        simp only [loopIter, hb, hw]
        refine ⟨?_, ?_, ?_⟩
        · rw [List.chain'_cons]
          refine ⟨by simp [hev1, isStarted_started], ?_⟩
          rw [List.chain'_cons']
          exact ⟨fun b hb2 => by
            simp [isStarted_started, ihh b (Option.mem_def.mp hb2)], ihc⟩
        · intro e he
          simp only [List.head?_cons, Option.some.injEq] at he
          subst he
          exact hev1
        · intro e he
          rcases List.mem_cons.mp he with h | h
          · subst h; exact Or.inr hev2
          rcases List.mem_cons.mp h with h2 | h2
          · subst h2; exact Or.inl rfl
          · exact ihm e h2

/-- C1: for every sequence of per-iteration inputs delivered to one
project's build loop, the emitted event sequence begins with a `Started`,
strictly alternates between `Started` events and terminal events, and
contains only `Started`/`Completed`/`Failure` events — so a terminal event
is always immediately preceded by the `Started` that opened it, and two
`Started` events never appear in a row. -/
theorem c1_build_loop_alternation (nix_file : NixFile) (steps : List LoopStep) :
    (buildLoopTrace nix_file steps).head? =
      some (Event.Started nix_file (Reason.ProjectAdded nix_file))
    ∧ List.Chain' (fun a b => isStarted a ≠ isStarted b)
        (buildLoopTrace nix_file steps)
    ∧ ∀ e ∈ buildLoopTrace nix_file steps,
        isStarted e = true ∨ isTerminal e = true := by
  obtain ⟨hc, hh, hm⟩ := loopIter_props nix_file steps
  refine ⟨rfl, ?_, ?_⟩
  · rw [buildLoopTrace, List.chain'_cons']
    exact ⟨fun b hb => by
      simp [isStarted_started, hh b (Option.mem_def.mp hb)], hc⟩
  · intro e he
    rcases List.mem_cons.mp he with h | h
    · subst h; exact Or.inl rfl
    · exact hm e h

/-- C4: the very first event a newly created build loop emits is
`Started` with reason `ProjectAdded` carrying the project's nix file,
for every input sequence — in particular even when no build outcome or
trigger is ever delivered. -/
theorem c4_first_event_project_added (nix_file : NixFile)
    (steps : List LoopStep) :
    (buildLoopTrace nix_file steps).head? =
      some (Event.Started nix_file (Reason.ProjectAdded nix_file))
    ∧ buildLoopTrace nix_file [] =
        [Event.Started nix_file (Reason.ProjectAdded nix_file)] :=
  ⟨rfl, rfl⟩

/-- C5 counterexample: immediately after a successful build (when the
spec says the root is intact and a ping must be a no-op producing no
event), a ping-classified wait outcome still produces a new `Started`
event; moreover no wait outcome at all is a no-op — the only outcome
that yields no trigger is watcher death, which kills the loop. The
build loop of `src/build_loop.rs` blocks on a single source and has no
root-existence check. -/
theorem c5_ping_counterexample :
    (buildLoopTrace "shell.nix"
        [⟨Except.ok ⟨⟨"gc-root"⟩⟩, Except.ok Reason.PingReceived⟩] =
      [Event.Started "shell.nix" (Reason.ProjectAdded "shell.nix"),
       Event.Completed "shell.nix" ⟨⟨"gc-root"⟩⟩,
       Event.Started "shell.nix" Reason.PingReceived])
    ∧ ¬ ∃ w : Except RawEventError Reason,
          triggerOf w = none
          ∧ w ≠ Except.error RawEventError.RxNoEventReceived := by
  refine ⟨rfl, ?_⟩
  rintro ⟨w, h1, h2⟩
  cases w with
  | ok r => simp [triggerOf] at h1
  | error e =>
    cases e with
    | EventHasNoFilePath m => simp [triggerOf] at h1
    | RxNoEventReceived => exact h2 rfl

/-- C5 (amended): after handling a trigger, the build loop blocks only on
the change classifier's next reason; every successfully classified reason
unconditionally becomes the next trigger and is emitted as a `Started`
event, and the only wait outcome producing no trigger is watcher death
(which aborts the loop). There is no ping source and no root-existence
check in the loop. -/
theorem c5_wait_only_watcher :
    (∀ (nix_file : NixFile) (result : BuildResults) (r : Reason)
        (rest : List LoopStep),
       loopIter nix_file (⟨Except.ok result, Except.ok r⟩ :: rest) =
         Event.Completed nix_file result ::
           Event.Started nix_file r :: loopIter nix_file rest)
    ∧ (∀ w : Except RawEventError Reason,
         triggerOf w = none ↔
           w = Except.error RawEventError.RxNoEventReceived) := by
  refine ⟨fun _ _ _ _ => rfl, fun w => ⟨?_, ?_⟩⟩
  · intro h
    cases w with
    | ok r => simp [triggerOf] at h
    | error e =>
      cases e with
      | EventHasNoFilePath m => simp [triggerOf] at h
      | RxNoEventReceived => rfl
  · rintro rfl; rfl

/-- C6: `error::BuildError::is_actionable` partitions the variants into
actionable (`Spawn`, `Exit`, `Output`) and non-actionable (`Io`); in the
build loop, a recoverable build error becomes a `Failure` event and the
loop continues to the next trigger, while an unrecoverable error stops
the loop (panic) — no further event of the run is emitted, whatever
inputs remain. -/
theorem c6_error_partition :
    (∀ m, BuildError.is_actionable ( BuildError.Io m) = false)
    ∧ (∀ c m, BuildError.is_actionable ( BuildError.Spawn c m) = true)
    ∧ (∀ c s lgs, BuildError.is_actionable ( BuildError.Exit c s lgs) = true)
    ∧ (∀ m, BuildError.is_actionable ( BuildError.Output m) = true)
    ∧ (∀ (nix_file : NixFile) (f : BuildExitFailure) (r : Reason)
          (rest : List LoopStep),
        loopIter nix_file
            (⟨Except.error (LoopBuildError.Recoverable f), Except.ok r⟩ ::
              rest) =
          Event.Failure nix_file f ::
            Event.Started nix_file r :: loopIter nix_file rest)
    ∧ (∀ (nix_file : NixFile) (u : UnrecoverableErrors)
          (w : Except RawEventError Reason) (rest : List LoopStep),
        loopIter nix_file
            (⟨Except.error (LoopBuildError.Unrecoverable u), w⟩ :: rest) =
          []) :=
  ⟨fun _ => rfl, fun _ _ => rfl, fun _ _ _ => rfl, fun _ => rfl,
   fun _ _ _ _ => rfl, fun _ _ _ _ => rfl⟩

/-- C7: a watch event without an identifiable file path does not fail the
loop — the next trigger is `UnknownEvent` carrying the debug description,
and the loop continues; a closed notification channel (dead watcher)
aborts the loop, so nothing is emitted afterwards, whatever inputs
remain. -/
theorem c7_unknown_event_recovery :
    (∀ m, triggerOf (Except.error (RawEventError.EventHasNoFilePath m)) =
        some (Reason.UnknownEvent ⟨m⟩))
    ∧ (∀ (nix_file : NixFile) (result : BuildResults) (m : String)
          (rest : List LoopStep),
        loopIter nix_file
            (⟨Except.ok result,
              Except.error (RawEventError.EventHasNoFilePath m)⟩ :: rest) =
          Event.Completed nix_file result ::
            Event.Started nix_file (Reason.UnknownEvent ⟨m⟩) ::
              loopIter nix_file rest)
    ∧ (∀ (nix_file : NixFile) (result : BuildResults) (rest : List LoopStep),
        loopIter nix_file
            (⟨Except.ok result,
              Except.error RawEventError.RxNoEventReceived⟩ :: rest) =
          [Event.Completed nix_file result]) :=
  ⟨fun _ => rfl, fun _ _ _ _ => rfl, fun _ _ _ => rfl⟩

/-! ## Event router lemmas, then claims C2 and C3 -/

lemma send_true_received {l : Listener} {ev : Event}
    (h : (l.send ev).2 = true) :
    (l.send ev).1.received = l.received ++ [ev] := by
  rcases l with ⟨rc, rem⟩
  cases rem with
  | none => rfl
  | some k =>
    cases k with
    | zero => simp [Listener.send] at h
    | succ k => rfl

lemma sendAll_none (evs : List Event) :
    ∀ rc : List Event,
      Listener.sendAll ⟨rc, none⟩ evs = (⟨rc ++ evs, none⟩, true) := by
  induction evs with
  | nil => intro rc; simp [Listener.sendAll]
  | cons ev rest ih =>
    intro rc
    simp [Listener.sendAll, Listener.send, ih (rc ++ [ev])]

lemma sendAll_exact (evs : List Event) :
    ∀ (rc : List Event) (j : Nat),
      Listener.sendAll ⟨rc, some (evs.length + j)⟩ evs =
        (⟨rc ++ evs, some j⟩, true) := by
  induction evs with
  | nil => intro rc j; simp [Listener.sendAll]
  | cons ev rest ih =>
    intro rc j
    have h1 : (ev :: rest).length + j = (rest.length + j) + 1 := by
      simp [List.length_cons]; omega
    rw [h1]
    simp [Listener.sendAll, Listener.send, ih (rc ++ [ev]) j]

lemma sendAll_short (evs : List Event) :
    ∀ (rc : List Event) (k : Nat), k < evs.length →
      (Listener.sendAll ⟨rc, some k⟩ evs).2 = false := by
  induction evs with
  | nil => intro rc k h; simp at h
  | cons ev rest ih =>
    intro rc k h
    cases k with
    | zero => simp [Listener.sendAll, Listener.send]
    | succ k =>
      have h2 : k < rest.length := by
        simp [List.length_cons] at h; omega
      simp [Listener.sendAll, Listener.send, ih (rc ++ [ev]) k h2]

lemma sendAll_true_received :
    ∀ (evs : List Event) (l : Listener),
      (Listener.sendAll l evs).2 = true →
      (Listener.sendAll l evs).1.received = l.received ++ evs := by
  intro evs
  induction evs with
  | nil => intro l _; simp [Listener.sendAll]
  | cons ev rest ih =>
    intro l h
    cases hp : (l.send ev).2 with
    | false => simp [Listener.sendAll, hp] at h
    | true =>
      simp only [Listener.sendAll, hp, if_true] at h ⊢
      rw [ih (l.send ev).1 h, send_true_received hp]
      simp

lemma handleNewListener_ps (st : RouterState) (rem : Option Nat) :
    (handleNewListener st rem).project_states = st.project_states := by
  cases hp : (Listener.sendAll ⟨[], rem⟩ (st.project_states.map Prod.snd)).2 with
  | false => simp [handleNewListener, hp]
  | true =>
    cases hq : ((Listener.sendAll ⟨[], rem⟩
        (st.project_states.map Prod.snd)).1.send Event.SectionEnd).2 with
    | false => simp [handleNewListener, hp, hq]
    | true => simp [handleNewListener, hp, hq]

lemma handleNewListener_none (st : RouterState) :
    handleNewListener st none =
      ⟨st.project_states,
       st.event_listeners ++
         [⟨st.project_states.map Prod.snd ++ [Event.SectionEnd], none⟩]⟩ := by
  have h := sendAll_none (st.project_states.map Prod.snd) []
  simp only [List.nil_append] at h
  simp [handleNewListener, h, Listener.send]

lemma handleNewListener_short (st : RouterState) (k : Nat)
    (h : k ≤ (st.project_states.map Prod.snd).length) :
    handleNewListener st (some k) = st := by
  rcases Nat.lt_or_ge k (st.project_states.map Prod.snd).length with hlt | hge
  · have h2 := sendAll_short (st.project_states.map Prod.snd) [] k hlt
    simp [handleNewListener, h2]
  · have hk : k = (st.project_states.map Prod.snd).length :=
      Nat.le_antisymm h hge
    subst hk
    have h2 := sendAll_exact (st.project_states.map Prod.snd) [] 0
    simp only [Nat.add_zero, List.nil_append] at h2
    simp only [handleNewListener]
    rw [h2]
    rfl

lemma handleNewListener_long (st : RouterState) (j : Nat) :
    handleNewListener st
        (some ((st.project_states.map Prod.snd).length + 1 + j)) =
      ⟨st.project_states,
       st.event_listeners ++
         [⟨st.project_states.map Prod.snd ++ [Event.SectionEnd],
           some j⟩]⟩ := by
  have h2 := sendAll_exact (st.project_states.map Prod.snd) [] (j + 1)
  simp only [List.nil_append] at h2
  have harith : (st.project_states.map Prod.snd).length + 1 + j =
      (st.project_states.map Prod.snd).length + (j + 1) := by omega
  rw [harith]
  simp only [handleNewListener]
  rw [h2]
  rfl

lemma mem_broadcastEvent {ls : List Listener} {ev : Event} {l : Listener}
    (h : l ∈ broadcastEvent ls ev) :
    ∃ l0 ∈ ls, l.received = l0.received ++ [ev] := by
  rw [broadcastEvent, List.mem_filterMap] at h
  obtain ⟨l0, hmem, hf⟩ := h
  refine ⟨l0, hmem, ?_⟩
  by_cases hp : (l0.send ev).2
  · simp only [hp, if_true] at hf
    have h3 := Option.some.inj hf
    rw [← h3]
    exact send_true_received hp
  · simp [hp] at hf

lemma broadcastEvent_filter_map (ls : List Listener) (ev : Event) :
    broadcastEvent ls ev =
      (ls.filter (fun l => (l.send ev).2)).map (fun l => (l.send ev).1) := by
  induction ls with
  | nil => rfl
  | cons l rest ih =>
    by_cases hp : (l.send ev).2 <;>
      simpa [broadcastEvent, List.filterMap_cons, List.filter_cons, hp]
        using ih

lemma lookup_insertPS (nix_file nf' : NixFile) (ev : Event)
    (ps : List (NixFile × Event)) :
    (insertPS ps nix_file ev).lookup nf' =
      if nf' = nix_file then some ev else ps.lookup nf' := by
  induction ps with
  | nil =>
    by_cases h : nf' = nix_file
    · subst h; simp [insertPS, List.lookup]
    · have hb : (nf' == nix_file) = false := beq_eq_false_iff_ne.mpr h
      simp [insertPS, List.lookup, hb, h]
  | cons kv rest ih =>
    rcases kv with ⟨k, v⟩
    by_cases hk : k = nix_file
    · subst hk
      by_cases h2 : nf' = k
      · subst h2; simp [insertPS, List.lookup]
      · have hb : (nf' == k) = false := beq_eq_false_iff_ne.mpr h2
        simp [insertPS, List.lookup, hb, h2]
    · by_cases h2 : nf' = k
      · subst h2
        simp [insertPS, List.lookup, hk, Ne.symm hk]
      · have hb : (nf' == k) = false := beq_eq_false_iff_ne.mpr h2
        simp [insertPS, List.lookup, hk, hb, h2, ih]

lemma mem_insertPS_snd {ps : List (NixFile × Event)} {nix_file : NixFile}
    {ev v : Event} (h : v ∈ (insertPS ps nix_file ev).map Prod.snd) :
    v = ev ∨ v ∈ ps.map Prod.snd := by
  induction ps with
  | nil =>
    simp [insertPS] at h
    exact Or.inl h
  | cons kv rest ih =>
    rcases kv with ⟨k, w⟩
    by_cases hk : k = nix_file
    · subst hk
      rw [show insertPS ((k, w) :: rest) k ev = (k, ev) :: rest from
        by simp [insertPS]] at h
      simp only [List.map_cons, List.mem_cons] at h
      rcases h with h | h
      · exact Or.inl h
      · right
        simp only [List.map_cons, List.mem_cons]
        exact Or.inr h
    · simp only [insertPS] at h
      rw [if_neg hk] at h
      simp only [List.map_cons, List.mem_cons] at h
      rcases h with h | h
      · right
        simp only [List.map_cons, List.mem_cons]
        exact Or.inl h
      · rcases ih h with h2 | h2
        · exact Or.inl h2
        · right
          simp only [List.map_cons, List.mem_cons]
          exact Or.inr h2

lemma routerInv_init : routerInv initRouterState :=
  ⟨by simp [initRouterState], by simp [initRouterState]⟩

lemma routerInv_keyed {st : RouterState} {ev : Event} (nf : NixFile)
    (hinv : routerInv st) (hne : ev ≠ Event.SectionEnd) :
    routerInv ⟨insertPS st.project_states nf ev,
               broadcastEvent st.event_listeners ev⟩ := by
  obtain ⟨hmap, hls⟩ := hinv
  constructor
  · intro v hv
    rcases mem_insertPS_snd hv with h | h
    · subst h; exact hne
    · exact hmap v h
  · intro l hl
    obtain ⟨l0, hm0, hrecv⟩ := mem_broadcastEvent hl
    obtain ⟨pre, post, he, h1, h2⟩ := hls l0 hm0
    refine ⟨pre, post ++ [ev], ?_, h1, ?_⟩
    · rw [hrecv, he]
      simp
    · simp only [List.mem_append, List.mem_singleton]
      rintro (h3 | h3)
      · exact h2 h3
      · exact hne h3.symm

lemma routerInv_step {st st' : RouterState} {m : LoopHandlerEvent}
    (hinv : routerInv st) (h : routerStep st m = some st') :
    routerInv st' := by
  cases m with
  | NewListener rem =>
    simp only [routerStep, Option.some.injEq] at h
    subst h
    cases hp : (Listener.sendAll ⟨[], rem⟩
        (st.project_states.map Prod.snd)).2 with
    | false =>
      simp only [handleNewListener, hp, Bool.false_eq_true, if_false]
      exact hinv
    | true =>
      cases hq : ((Listener.sendAll ⟨[], rem⟩
          (st.project_states.map Prod.snd)).1.send Event.SectionEnd).2 with
      | false =>
        simp only [handleNewListener, hp, if_true, hq, Bool.false_eq_true,
          if_false]
        exact hinv
      | true =>
        obtain ⟨hmap, hls⟩ := hinv
        simp only [handleNewListener, hp, if_true, hq]
        constructor
        · exact hmap
        · intro l hl
          rcases List.mem_append.mp hl with hold | hnew
          · exact hls l hold
          · have hl2 : l = ((Listener.sendAll ⟨[], rem⟩
                (st.project_states.map Prod.snd)).1.send
                  Event.SectionEnd).1 := List.mem_singleton.mp hnew
            subst hl2
            have e1 := send_true_received hq
            have e2 := sendAll_true_received _ _ hp
            simp only [List.nil_append] at e2
            refine ⟨st.project_states.map Prod.snd, [], ?_, ?_, by simp⟩
            · rw [e1, e2]
            · intro hse
              exact hmap Event.SectionEnd hse rfl
  | BuildEvent ev =>
    cases ev with
    | SectionEnd =>
      simp only [routerStep, handleBuildEvent, Option.some.injEq] at h
      subst h
      exact hinv
    | Heartbeat => simp [routerStep, handleBuildEvent] at h
    | Started nf r =>
      simp only [routerStep, handleBuildEvent, Option.some.injEq] at h
      subst h
      exact routerInv_keyed nf hinv (by simp)
    | Completed nf res =>
      simp only [routerStep, handleBuildEvent, Option.some.injEq] at h
      subst h
      exact routerInv_keyed nf hinv (by simp)
    | Failure nf f =>
      simp only [routerStep, handleBuildEvent, Option.some.injEq] at h
      subst h
      exact routerInv_keyed nf hinv (by simp)

lemma routerInv_run :
    ∀ (msgs : List LoopHandlerEvent) (st st' : RouterState),
      routerRun st msgs = some st' → routerInv st → routerInv st' := by
  intro msgs
  induction msgs with
  | nil =>
    intro st st' h hinv
    simp only [routerRun, Option.some.injEq] at h
    subst h
    exact hinv
  | cons m rest ih =>
    intro st st' h hinv
    cases hstep : routerStep st m with
    | none => simp [routerRun, hstep] at h
    | some st1 =>
      simp only [routerRun, hstep] at h
      exact ih st1 st' h (routerInv_step hinv hstep)

lemma lookup_keyed_step (ps : List (NixFile × Event)) (nf nf0 : NixFile)
    (ev : Event) (hk : keyOf ev = some nf0) :
    (insertPS ps nf0 ev).lookup nf =
      if keyOf ev = some nf then some ev else ps.lookup nf := by
  rw [lookup_insertPS, hk]
  by_cases h0 : nf = nf0
  · subst h0; simp
  · simp [h0, Ne.symm h0]

lemma lookup_routerRun :
    ∀ (msgs : List LoopHandlerEvent) (st st' : RouterState),
      routerRun st msgs = some st' → ∀ nf : NixFile,
        st'.project_states.lookup nf =
          msgs.foldl (updateLastKeyed nf) (st.project_states.lookup nf) := by
  intro msgs
  induction msgs with
  | nil =>
    intro st st' h nf
    simp only [routerRun, Option.some.injEq] at h
    subst h
    simp
  | cons m rest ih =>
    intro st st' h nf
    cases hstep : routerStep st m with
    | none => simp [routerRun, hstep] at h
    | some st1 =>
      simp only [routerRun, hstep] at h
      rw [List.foldl_cons, ih st1 st' h nf]
      congr 1
      cases m with
      | NewListener rem =>
        simp only [routerStep, Option.some.injEq] at hstep
        subst hstep
        simp [updateLastKeyed, handleNewListener_ps]
      | BuildEvent ev =>
        cases ev with
        | SectionEnd =>
          simp only [routerStep, handleBuildEvent, Option.some.injEq] at hstep
          subst hstep
          simp [updateLastKeyed, keyOf]
        | Heartbeat => simp [routerStep, handleBuildEvent] at hstep
        | Started nf0 r =>
          simp only [routerStep, handleBuildEvent, Option.some.injEq] at hstep
          subst hstep
          simp only [updateLastKeyed]
          exact lookup_keyed_step st.project_states nf nf0 _ rfl
        | Completed nf0 res =>
          simp only [routerStep, handleBuildEvent, Option.some.injEq] at hstep
          subst hstep
          simp only [updateLastKeyed]
          exact lookup_keyed_step st.project_states nf nf0 _ rfl
        | Failure nf0 f =>
          simp only [routerStep, handleBuildEvent, Option.some.injEq] at hstep
          subst hstep
          simp only [updateLastKeyed]
          exact lookup_keyed_step st.project_states nf nf0 _ rfl

/-- C2: on `NewListener`, the router replays the current project-state
values, then the `SectionEnd` sentinel, and only a channel that accepted
all of them joins the listener set: (1) a client that never disconnects
joins having received exactly the map values followed by `SectionEnd`;
(2) a client that disconnects during replay or before the sentinel is
discarded and the router state is unchanged — no error is raised
(`handleNewListener` is total); (3) a client that accepts the whole
handshake and `j` more events joins with budget `j`; (4) over any run
from the daemon's initial state, every live listener's received stream is
some replay prefix, then exactly one `SectionEnd`, then live events — the
sentinel appears exactly once per listener stream. -/
theorem c2_new_listener_replay :
    (∀ st : RouterState,
       handleNewListener st none =
         ⟨st.project_states,
          st.event_listeners ++
            [⟨st.project_states.map Prod.snd ++ [Event.SectionEnd],
              none⟩]⟩)
    ∧ (∀ (st : RouterState) (k : Nat),
         k ≤ (st.project_states.map Prod.snd).length →
         handleNewListener st (some k) = st)
    ∧ (∀ (st : RouterState) (j : Nat),
         handleNewListener st
             (some ((st.project_states.map Prod.snd).length + 1 + j)) =
           ⟨st.project_states,
            st.event_listeners ++
              [⟨st.project_states.map Prod.snd ++ [Event.SectionEnd],
                some j⟩]⟩)
    ∧ (∀ (msgs : List LoopHandlerEvent) (st' : RouterState),
         routerRun initRouterState msgs = some st' →
         ∀ l ∈ st'.event_listeners, ∃ pre post,
           l.received = pre ++ Event.SectionEnd :: post
           ∧ Event.SectionEnd ∉ pre ∧ Event.SectionEnd ∉ post) := by
  refine ⟨handleNewListener_none, handleNewListener_short,
          handleNewListener_long, ?_⟩
  intro msgs st' h l hl
  exact (routerInv_run msgs initRouterState st' h routerInv_init).2 l hl

/-- C2 witness: with an empty project map, a never-disconnecting client
joins after receiving just `SectionEnd`; a client that accepts nothing is
discarded with the state unchanged; and after that one-message run the
sole listener's stream contains exactly one `SectionEnd`. -/
theorem c2_new_listener_replay_witness :
    handleNewListener initRouterState (some 0) = initRouterState
    ∧ ∃ pre post,
        (⟨[Event.SectionEnd], none⟩ : Listener).received =
          pre ++ Event.SectionEnd :: post
        ∧ Event.SectionEnd ∉ pre ∧ Event.SectionEnd ∉ post :=
  ⟨c2_new_listener_replay.2.1 initRouterState 0 (by simp [initRouterState]),
   c2_new_listener_replay.2.2.2 [LoopHandlerEvent.NewListener none]
     ⟨[], [⟨[Event.SectionEnd], none⟩]⟩ rfl
     ⟨[Event.SectionEnd], none⟩ (by simp)⟩

/-- C3 counterexample: `Heartbeat` is an event variant other than
`SectionEnd`, yet it carries no project key and the router's `BuildEvent`
match (`src/ops/daemon.rs` lines 72-80) has no arm for it — it is neither
stored under a project key nor broadcast, refuting "every other event
variant updates the ProjectState map under that event's project key and
is then broadcast". -/
theorem c3_heartbeat_counterexample :
    Event.Heartbeat ≠ Event.SectionEnd
    ∧ keyOf Event.Heartbeat = none
    ∧ handleBuildEvent initRouterState Event.Heartbeat = none :=
  ⟨by simp, rfl, rfl⟩

/-- C3 (amended): `SectionEnd` is dropped (the router state is entirely
unchanged); every project-keyed variant (`Started`, `Completed`,
`Failure`) is stored in the map under its project key and broadcast, with
exactly the listeners whose send succeeded surviving (in updated form);
and over any run from the daemon's initial state the map holds, for each
project, precisely the most recently received project-keyed event for it.
`Heartbeat` is excluded: the router match has no arm for it. -/
theorem c3_build_event_routing :
    (∀ st : RouterState, handleBuildEvent st Event.SectionEnd = some st)
    ∧ (∀ (st : RouterState) (ev : Event) (nix_file : NixFile),
         keyOf ev = some nix_file →
         handleBuildEvent st ev =
           some ⟨insertPS st.project_states nix_file ev,
                 broadcastEvent st.event_listeners ev⟩)
    ∧ (∀ (ls : List Listener) (ev : Event),
         broadcastEvent ls ev =
           (ls.filter (fun l => (l.send ev).2)).map
             (fun l => (l.send ev).1))
    ∧ (∀ (msgs : List LoopHandlerEvent) (st' : RouterState),
         routerRun initRouterState msgs = some st' →
         ∀ nix_file : NixFile,
           st'.project_states.lookup nix_file =
             lastKeyedEvent msgs nix_file) := by
  refine ⟨fun _ => rfl, ?_, broadcastEvent_filter_map, ?_⟩
  · intro st ev nix_file hk
    cases ev with
    | Heartbeat => simp [keyOf] at hk
    | SectionEnd => simp [keyOf] at hk
    | Started nf r =>
      simp only [keyOf, Option.some.injEq] at hk
      subst hk
      rfl
    | Completed nf res =>
      simp only [keyOf, Option.some.injEq] at hk
      subst hk
      rfl
    | Failure nf f =>
      simp only [keyOf, Option.some.injEq] at hk
      subst hk
      rfl
  · intro msgs st' h nix_file
    have := lookup_routerRun msgs initRouterState st' h nix_file
    simpa [initRouterState, lastKeyedEvent] using this

/-- C3 witness: a `Started` event for project `"a"` is stored and
broadcast from the initial state, and after that one-message run the map's
entry for `"a"` is that event, the most recently received one. -/
theorem c3_build_event_routing_witness :
    handleBuildEvent initRouterState
        (Event.Started "a" (Reason.FilesChanged ["f"])) =
      some ⟨insertPS initRouterState.project_states "a"
              (Event.Started "a" (Reason.FilesChanged ["f"])),
            broadcastEvent initRouterState.event_listeners
              (Event.Started "a" (Reason.FilesChanged ["f"]))⟩
    ∧ (⟨[("a", Event.Started "a" (Reason.FilesChanged ["f"]))],
        []⟩ : RouterState).project_states.lookup "a" =
        lastKeyedEvent
          [LoopHandlerEvent.BuildEvent
            (Event.Started "a" (Reason.FilesChanged ["f"]))] "a" :=
  ⟨c3_build_event_routing.2.1 initRouterState
      (Event.Started "a" (Reason.FilesChanged ["f"])) "a" rfl,
   c3_build_event_routing.2.2.2
     [LoopHandlerEvent.BuildEvent
       (Event.Started "a" (Reason.FilesChanged ["f"]))]
     ⟨[("a", Event.Started "a" (Reason.FilesChanged ["f"]))], []⟩ rfl "a"⟩

/-! ## Stream-events client -/

lemma streamLoop_all (events : List Event) :
    ∀ b : Bool, streamLoop EventKind.All b events =
      events.filter (fun e => e ≠ Event.SectionEnd) := by
  induction events with
  | nil => intro b; rfl
  | cons ev rest ih =>
    intro b
    cases ev <;> simp [streamLoop, shouldPrint, List.filter_cons, ih]

lemma streamLoop_snapshot (events : List Event) :
    streamLoop EventKind.Snapshot false events =
      events.takeWhile (fun e => e ≠ Event.SectionEnd) := by
  induction events with
  | nil => rfl
  | cons ev rest ih =>
    cases ev <;>
      simp [streamLoop, shouldPrint, List.takeWhile_cons, ih]

lemma streamLoop_live_true (events : List Event) :
    streamLoop EventKind.Live true events =
      events.filter (fun e => e ≠ Event.SectionEnd) := by
  induction events with
  | nil => rfl
  | cons ev rest ih =>
    cases ev <;> simp [streamLoop, shouldPrint, List.filter_cons, ih]

lemma streamLoop_live_false (events : List Event) :
    streamLoop EventKind.Live false events = liveSpec events := by
  induction events with
  | nil => rfl
  | cons ev rest ih =>
    cases ev <;>
      simp [streamLoop, shouldPrint, liveSpec, List.dropWhile_cons, ih,
        streamLoop_live_true]

/-- C8: for every incoming event stream, Snapshot mode prints exactly the
events preceding the first `SectionEnd` and then stops; Live mode prints
exactly the non-sentinel events strictly after the first `SectionEnd`;
All mode prints every non-sentinel event; the `SectionEnd` sentinel
itself is never printed in any mode. -/
theorem c8_stream_modes (events : List Event) :
    streamOutput EventKind.Snapshot events = snapshotSpec events
    ∧ streamOutput EventKind.Live events = liveSpec events
    ∧ streamOutput EventKind.All events = allSpec events
    ∧ ∀ kind : EventKind,
        Event.SectionEnd ∉ streamOutput kind events := by
  refine ⟨streamLoop_snapshot events, streamLoop_live_false events,
          streamLoop_all events false, ?_⟩
  intro kind
  cases kind with
  | Snapshot =>
    rw [streamOutput, streamLoop_snapshot]
    intro hmem
    have := List.mem_takeWhile_imp hmem
    simp at this
  | Live =>
    rw [streamOutput, streamLoop_live_false]
    intro hmem
    have := List.of_mem_filter hmem
    simp at this
  | All =>
    rw [streamOutput, streamLoop_all events false]
    intro hmem
    have := List.of_mem_filter hmem
    simp at this

/-! ## `lorri init` scaffolding -/

lemma create_if_missing_of_isSome {fs : FileSystem} {path : String}
    (h : (fs.lookup path).isSome = true) (contents msg : String) :
    create_if_missing fs path contents msg = fs := by
  simp [create_if_missing, h]

lemma lookup_create_if_missing_self (fs : FileSystem)
    (path contents msg : String) :
    ((create_if_missing fs path contents msg).lookup path).isSome = true := by
  cases h : fs.lookup path with
  | some c => simp [create_if_missing, h]
  | none =>
    simp only [create_if_missing, h, Option.isSome_none, Bool.false_eq_true,
      if_false]
    simp [List.lookup]

lemma lookup_create_if_missing_other {fs : FileSystem} {p path : String}
    (h : p ≠ path) (contents msg : String) :
    (create_if_missing fs path contents msg).lookup p = fs.lookup p := by
  cases hl : fs.lookup path with
  | some c => simp [create_if_missing, hl]
  | none =>
    have hb : (p == path) = false := beq_eq_false_iff_ne.mpr h
    simp only [create_if_missing, hl, Option.isSome_none, Bool.false_eq_true,
      if_false]
    simp [List.lookup, hb]

lemma create_if_missing_preserves_isSome {fs : FileSystem} {p : String}
    (h : (fs.lookup p).isSome = true) (path contents msg : String) :
    ((create_if_missing fs path contents msg).lookup p).isSome = true := by
  by_cases hp : p = path
  · subst hp
    exact lookup_create_if_missing_self fs p contents msg
  · rw [lookup_create_if_missing_other hp]
    exact h

lemma lookup_init_main_shell (fs : FileSystem) (s e : String) :
    ((init_main fs s e).lookup "./shell.nix").isSome = true := by
  rw [init_main]
  exact create_if_missing_preserves_isSome
    (lookup_create_if_missing_self fs "./shell.nix" s _) _ _ _

lemma lookup_init_main_envrc (fs : FileSystem) (s e : String) :
    ((init_main fs s e).lookup "./.envrc").isSome = true := by
  rw [init_main]
  exact lookup_create_if_missing_self _ "./.envrc" e _

/-- C9: `create_if_missing` returns success without writing when a file
already exists at the path (the filesystem is unchanged, so the existing
contents are untouched); only when no file exists is one created holding
exactly the given contents, and no other path is affected; consequently a
second run of `lorri init` changes nothing at all. -/
theorem c9_create_if_missing_frame :
    (∀ (fs : FileSystem) (path contents msg c : String),
       fs.lookup path = some c →
       create_if_missing fs path contents msg = fs)
    ∧ (∀ (fs : FileSystem) (path contents msg : String),
         fs.lookup path = none →
         (create_if_missing fs path contents msg).lookup path =
             some contents
           ∧ ∀ p, p ≠ path →
               (create_if_missing fs path contents msg).lookup p =
                 fs.lookup p)
    ∧ (∀ (fs : FileSystem) (default_shell default_envrc : String),
         init_main (init_main fs default_shell default_envrc)
             default_shell default_envrc =
           init_main fs default_shell default_envrc) := by
  refine ⟨?_, ?_, ?_⟩
  · intro fs path contents msg c h
    exact create_if_missing_of_isSome (by simp [h]) contents msg
  · intro fs path contents msg h
    constructor
    · simp only [create_if_missing, h, Option.isSome_none,
        Bool.false_eq_true, if_false]
      simp [List.lookup]
    · intro p hp
      exact lookup_create_if_missing_other hp contents msg
  · intro fs default_shell default_envrc
    conv_lhs => rw [init_main]
    rw [create_if_missing_of_isSome
      (lookup_init_main_shell fs default_shell default_envrc)]
    exact create_if_missing_of_isSome
      (lookup_init_main_envrc fs default_shell default_envrc) _ _

/-- C9 witness: on a filesystem already holding `./shell.nix`, the
scaffold call leaves it unchanged; on an empty filesystem, scaffolding
creates exactly the given contents; and a double `init` run equals a
single one. -/
theorem c9_create_if_missing_frame_witness :
    create_if_missing [("./shell.nix", "x")] "./shell.nix" "y" "m" =
        [("./shell.nix", "x")]
    ∧ (create_if_missing [] "./shell.nix" "y" "m").lookup "./shell.nix" =
        some "y"
    ∧ init_main (init_main [] "s" "e") "s" "e" = init_main [] "s" "e" :=
  ⟨c9_create_if_missing_frame.1 [("./shell.nix", "x")] "./shell.nix"
     "y" "m" "x" rfl,
   (c9_create_if_missing_frame.2.1 [] "./shell.nix" "y" "m" rfl).1,
   c9_create_if_missing_frame.2.2 [] "s" "e"⟩

/-! ## LogLine serialisation -/

lemma toStringLossy_map_some {os : OsString} (h : validUtf8 os) :
    (toStringLossy os).map some = os := by
  induction os with
  | nil => rfl
  | cons u rest ih =>
    have hu : u.isSome = true := h u (List.mem_cons_self u rest)
    have hrest : validUtf8 rest := fun v hv => h v (List.mem_cons_of_mem u hv)
    cases u with
    | none => simp at hu
    | some c =>
      have hstep : toStringLossy (some c :: rest) = c :: toStringLossy rest :=
        rfl
      rw [hstep, List.map_cons, ih hrest]

/-- C10: serialising a `LogLine` whose `OsString` is valid UTF-8 and
deserialising the result yields the original `LogLine`; serialisation is
total on every `LogLine` — an invalid byte is replaced by U+FFFD rather
than raising an error. -/
theorem c10_logline_roundtrip :
    (∀ os : OsString, validUtf8 os →
       LogLine.deserialize (LogLine.serialize ⟨os⟩) = ⟨os⟩)
    ∧ (∀ pre post : OsString,
         LogLine.serialize ⟨pre ++ (none : OsChar) :: post⟩ =
           toStringLossy pre ++ replacementChar :: toStringLossy post) := by
  constructor
  · intro os h
    simp only [LogLine.deserialize, LogLine.serialize]
    rw [toStringLossy_map_some h]
  · intro pre post
    simp [LogLine.serialize, toStringLossy]

/-- C10 witness: the round trip is the identity on a concrete valid
`OsString`, and a lone invalid byte serialises to the replacement
character. -/
theorem c10_logline_roundtrip_witness :
    LogLine.deserialize (LogLine.serialize ⟨[some 'a', some 'b']⟩) =
        (⟨[some 'a', some 'b']⟩ : LogLine)
    ∧ LogLine.serialize ⟨[] ++ (none : OsChar) :: []⟩ =
        toStringLossy [] ++ replacementChar :: toStringLossy [] :=
  ⟨c10_logline_roundtrip.1 [some 'a', some 'b'] (by decide),
   c10_logline_roundtrip.2 [] []⟩
